import Mathlib

/-!
Shallow embedding of the cassis registry core (crates `lib` and `registry`).

Conventions of the embedding:
* Rust byte buffers are `List Nat` (each element standing for one `u8`).
* Rust `u32` fields are `Nat`; where a claim depends on the 32-bit range the
  theorem carries the bound as a hypothesis (in Rust it holds by type).
* Rust `i64` balances are `Int`.
* A Rust panic (out-of-bounds slice index, failed `expect`) is modelled by
  `Option`: `none` is the panic, `some` the normal result.
* Rust tuple fields `.0`/`.1` are Lean product fields `.1`/`.2`.
* The secp256k1 primitives are out of scope of the spec, so `sha256` and
  signature verification enter as explicit function parameters; an x-only
  public key is represented by its 32 serialized bytes.
-/

namespace Cassis

/-- A Rust byte buffer: one `Nat` per `u8`. -/
abbrev Bytes := List Nat

/-- Little-endian bytes of a `u32`, as `byteorder::LE::write_u32` lays them out. -/
def le32 (n : Nat) : Bytes :=
  [n % 256, n / 256 % 256, n / 65536 % 256, n / 16777216 % 256]

/-- `byteorder::LE::read_u32` over the first four bytes of a buffer. -/
def read32 (l : Bytes) : Nat :=
  l.getD 0 0 + 256 * l.getD 1 0 + 65536 * l.getD 2 0 + 16777216 * l.getD 3 0

/-- Rust `&buf[a..b]` as a value: `none` models the slice-index panic when the
range runs past the end of the buffer. -/
def readSlice (buf : Bytes) (a b : Nat) : Option Bytes :=
  if a ≤ b ∧ b ≤ buf.length then some ((buf.drop a).take (b - a)) else none

/-- Rust `buf[a..b].copy_from_slice(src)` (and, with `b = a + 1`, `buf[a] = x`):
`none` models the panic when the range is out of bounds or the lengths differ. -/
def copyTo (buf : Bytes) (a b : Nat) (src : Bytes) : Option Bytes :=
  if src.length = b - a ∧ a ≤ b ∧ b ≤ buf.length then
    some (buf.take a ++ src ++ buf.drop b)
  else none

/-- One hop of a transfer (`lib/src/operation/transfer.rs`). -/
structure Hop where
  from_ : Nat
  to_ : Nat
  amount : Nat
deriving DecidableEq

/-- A peer signature over a transfer (`lib/src/operation/transfer.rs`). -/
structure PeerSig where
  peer_idx : Nat
  sig : Bytes
deriving DecidableEq

/-- The Transfer operation (`lib/src/operation/transfer.rs`). -/
structure Transfer where
  ts : Nat
  hops : List Hop
  sigs : List PeerSig
deriving DecidableEq

/-- The Trust operation (`lib/src/operation/trust.rs`); `to` holds the 32
serialized bytes of the trustee's x-only public key. -/
structure Trust where
  ts : Nat
  from_ : Nat
  to_ : Bytes
  amount : Nat
  sig : Bytes
deriving DecidableEq

/-- The Operation tagged union (`lib/src/operation/mod.rs`). -/
inductive Operation where
  | Trust (t : Trust)
  | Transfer (t : Transfer)
  | Unknown
deriving DecidableEq

/-- `Hop::SIZE = 12`. -/
def Hop.SIZE : Nat := 12

/-- `Hop::write_to`: from at 0..4, amount at 4..8, to at 8..12, little endian. -/
def Hop.bytes (h : Hop) : Bytes :=
  le32 h.from_ ++ le32 h.amount ++ le32 h.to_

/-- `Hop::from_bytes`: reads from, amount, to from the first 12 bytes; a buffer
shorter than 12 panics on one of the three slices (`none` either way). -/
def Hop.from_bytes (data : Bytes) : Option Hop :=
  if 12 ≤ data.length then
    some { from_ := read32 data, amount := read32 (data.drop 4), to_ := read32 (data.drop 8) }
  else none

/-- `PeerSig::SIZE = 68`. -/
def PeerSig.SIZE : Nat := 68

/-- `PeerSig::write_to`: peer_idx at 0..4, the 64 signature bytes at 4..68. -/
def PeerSig.bytes (s : PeerSig) : Bytes :=
  le32 s.peer_idx ++ s.sig

/-- `PeerSig::from_bytes`: peer_idx from the first 4 bytes, sig from bytes
4..68; shorter buffers panic (`none`). -/
def PeerSig.from_bytes (data : Bytes) : Option PeerSig :=
  if 68 ≤ data.length then
    some { peer_idx := read32 data, sig := (data.drop 4).take 64 }
  else none

/-- `Transfer::size_nosig = 1 + 4 + hops.len() * Hop::SIZE` (as the source
computes it; it does not count the two length bytes at offsets 5 and 6). -/
def Transfer.size_nosig (t : Transfer) : Nat :=
  1 + 4 + t.hops.length * Hop.SIZE

/-- `Transfer::size = size_nosig + sigs.len() * PeerSig::SIZE`. -/
def Transfer.size (t : Transfer) : Nat :=
  t.size_nosig + t.sigs.length * PeerSig.SIZE

/-- The hop-writing loop of `Transfer::write_serialized`: hop `i` is written to
`buf[7 + i*12 .. 7 + (i+1)*12]`. -/
def writeHops : List Hop → Nat → Bytes → Option Bytes
  | [], _, buf => some buf
  | h :: rest, i, buf =>
    (copyTo buf (7 + i * 12) (7 + (i + 1) * 12) h.bytes).bind (writeHops rest (i + 1))

/-- `Transfer::write_serialized`: tag byte, ts, the two length bytes (each a
`try_into::<u8>().expect(..)`, so more than 255 entries panics), then the hops.
The signature list is not written here. -/
def Transfer.write_serialized (t : Transfer) (buf : Bytes) : Option Bytes :=
  (copyTo buf 0 1 [120]).bind fun b1 =>
  (copyTo b1 1 5 (le32 t.ts)).bind fun b2 =>
  (if t.hops.length ≤ 255 then some t.hops.length else none).bind fun nh =>
  (copyTo b2 5 6 [nh]).bind fun b3 =>
  (if t.sigs.length ≤ 255 then some t.sigs.length else none).bind fun ns =>
  (copyTo b3 6 7 [ns]).bind fun b4 =>
  writeHops t.hops 0 b4

/-- The buffer `OperationOps::sighash` hashes for a Transfer: a zeroed vector of
`size_nosig()` bytes filled by `write_serialized`. -/
def Transfer.sighashBytes (t : Transfer) : Option Bytes :=
  t.write_serialized (List.replicate t.size_nosig 0)

/-- The signature-writing loop of `redb::Value::as_bytes` for Transfer: sig `i`
goes to `buf[start + i*68 .. start + (i+1)*68]`. -/
def writeSigs : List PeerSig → Nat → Nat → Bytes → Option Bytes
  | [], _, _, buf => some buf
  | s :: rest, start, i, buf =>
    (copyTo buf (start + i * 68) (start + (i + 1) * 68) s.bytes).bind (writeSigs rest start (i + 1))

/-- `redb::Value::as_bytes` for Transfer: a zeroed vector of `size()` bytes,
`write_serialized`, then the signatures from `start = 7 + hops.len()*12`. -/
def Transfer.as_bytes (t : Transfer) : Option Bytes :=
  (t.write_serialized (List.replicate t.size 0)).bind fun b =>
  writeSigs t.sigs (7 + t.hops.length * 12) 0 b

/-- The hop-reading loop of `Transfer::deserialize`: `while i < nhops`, read a
hop at `buf[7 + i ..]`, `i += Hop::SIZE` — the bound counts entries but the
step counts bytes, exactly as in the source. The fuel argument only bounds the
iteration count and never runs out: it starts at `nhops` and every iteration
moves `i` by 12, so at most `nhops` iterations can satisfy `i < nhops`. -/
def readHops (buf : Bytes) : Nat → Nat → Nat → Option (List Hop)
  | 0, _, _ => some []
  | fuel + 1, i, nhops =>
    if i < nhops then
      (Hop.from_bytes (buf.drop (7 + i))).bind fun h =>
      (readHops buf fuel (i + 12) nhops).bind fun rest =>
      some (h :: rest)
    else some []

/-- The signature-reading loop of `Transfer::deserialize`: `while i < nhops`
(the source's bound really is `nhops`, not `nsigs`), read a `PeerSig` at
`buf[start + i ..]`, `i += PeerSig::SIZE`. Fuel as in `readHops`. -/
def readSigs (buf : Bytes) (start : Nat) : Nat → Nat → Nat → Option (List PeerSig)
  | 0, _, _ => some []
  | fuel + 1, i, nhops =>
    if i < nhops then
      (PeerSig.from_bytes (buf.drop (start + i))).bind fun s =>
      (readSigs buf start fuel (i + 68) nhops).bind fun rest =>
      some (s :: rest)
    else some []

/-- `Transfer::deserialize`: nhops from `buf[5]`, the hop loop, nsigs from
`buf[6]` (read, but unused by the loop bound), the sig loop, then ts from
`buf[1..5]`. `none` is the panic on any out-of-bounds access. -/
def Transfer.deserialize (buf : Bytes) : Option Transfer :=
  (buf.get? 5).bind fun nhops =>
  (readHops buf nhops 0 nhops).bind fun hops =>
  (buf.get? 6).bind fun _nsigs =>
  (readSigs buf (7 + nhops * 12) nhops 0 nhops).bind fun sigs =>
  (readSlice buf 1 5).bind fun tsb =>
  some { ts := read32 tsb, hops := hops, sigs := sigs }

/-- `Trust::SIZE = 109`. -/
def Trust.SIZE : Nat := 109

/-- `Trust::size_nosig = 45`. -/
def Trust.size_nosig : Nat := Trust.SIZE - 64

/-- `Trust::write_serialized`: tag byte 116, ts at 1..5, from at 5..9, the 32
key bytes at 9..41, amount at 41..45. The signature is not written here. -/
def Trust.write_serialized (t : Trust) (buf : Bytes) : Option Bytes :=
  (copyTo buf 0 1 [116]).bind fun b1 =>
  (copyTo b1 1 5 (le32 t.ts)).bind fun b2 =>
  (copyTo b2 5 9 (le32 t.from_)).bind fun b3 =>
  (copyTo b3 9 41 t.to_).bind fun b4 =>
  copyTo b4 41 45 (le32 t.amount)

/-- The buffer `OperationOps::sighash` hashes for a Trust: a zeroed vector of
`size_nosig() = 45` bytes filled by `write_serialized`. -/
def Trust.sighashBytes (t : Trust) : Option Bytes :=
  t.write_serialized (List.replicate Trust.size_nosig 0)

/-- `redb::Value::as_bytes` for Trust: `write_serialized` into 109 zeroed
bytes, then the signature copied to 45..109. -/
def Trust.as_bytes (t : Trust) : Option Bytes :=
  (t.write_serialized (List.replicate Trust.SIZE 0)).bind fun b =>
  copyTo b 45 109 t.sig

/-- `Trust::deserialize`: ts from 1..5, from from 5..9, the key bytes from
9..41, amount from 41..45, sig from 45..109 (the x-only-key validity check of
`XOnlyPublicKey::from_slice` is outside the embedding: the key stays raw
bytes). -/
def Trust.deserialize (buf : Bytes) : Option Trust :=
  (readSlice buf 1 5).bind fun tsb =>
  (readSlice buf 5 9).bind fun frb =>
  (readSlice buf 9 41).bind fun to_ =>
  (readSlice buf 41 45).bind fun amb =>
  (readSlice buf 45 109).bind fun sg =>
  some { ts := read32 tsb, from_ := read32 frb, to_ := to_, amount := read32 amb, sig := sg }

/-- `Operation::deserialize`: dispatch on `buf[0]` (`'x' = 120` Transfer,
`'t' = 116` Trust, anything else Unknown); an empty buffer panics on the
index. -/
def Operation.deserialize (buf : Bytes) : Option Operation :=
  match buf.get? 0 with
  | none => none
  | some 120 => (Transfer.deserialize buf).map Operation.Transfer
  | some 116 => (Trust.deserialize buf).map Operation.Trust
  | some _ => some Operation.Unknown

/-- `Operation::size` (`lib/src/operation/mod.rs`). -/
def Operation.size : Operation → Nat
  | .Trust _ => Trust.SIZE
  | .Transfer t => t.size
  | .Unknown => 0

/-- A credit line (`lib/src/state/line.rs`): `peers` sorted by index, `trust =
(trust_from_2_to_1, trust_from_1_to_2)`, negative balance means peer 2 owes
peer 1. Lean's `.1`/`.2` stand for Rust's `.0`/`.1`. -/
structure Line where
  peers : Nat × Nat
  trust : Nat × Nat
  balance : Int
deriving DecidableEq

/-- `Line::build_key`: the sorted pair packed as `(first << 32) | second`. -/
def Line.build_key (peer1 peer2 : Nat) : Nat :=
  if peer1 < peer2 then (peer1 <<< 32) ||| peer2 else (peer2 <<< 32) ||| peer1

/-- The registry state (`lib/src/state/mod.rs`): the dense key list, the
reverse index (an association list standing for the `HashMap`), and the line
table keyed by `Line::build_key`. -/
structure State where
  keys : List Bytes
  key_indexes : List (Bytes × Nat)
  lines : List (Nat × Line)
deriving DecidableEq

/-- Replace the line stored under key `k` (the `Entry::Occupied` /
`get_mut` write of `process`). -/
def setLine (lines : List (Nat × Line)) (k : Nat) (l : Line) : List (Nat × Line) :=
  lines.map fun p => if p.1 = k then (p.1, l) else p

/-- The per-hop delta accumulation of `validate`: find the peer's entry in the
vector (or push a fresh one at the end) and add `d` to its delta. -/
def addDelta : List (Nat × Int) → Nat → Int → List (Nat × Int)
  | [], peer, d => [(peer, d)]
  | e :: rest, peer, d =>
    if e.1 = peer then (e.1, e.2 + d) :: rest
    else e :: addDelta rest peer d

/-- The hop loop of `validate` for a Transfer: zero-amount check, line lookup,
the credit check — which compares `hop.to as i64` against `can_send`, exactly
as the source does — and the delta accumulation. Returns the first error or
the final delta vector. -/
def checkHops (lines : List (Nat × Line)) : List Hop → List (Nat × Int) →
    Except String (List (Nat × Int))
  | [], deltas => .ok deltas
  | hop :: rest, deltas =>
    if hop.amount = 0 then .error "hop can't have zero amount"
    else
      match List.lookup (Line.build_key hop.from_ hop.to_) lines with
      | none => .error "no line available for transfer"
      | some line =>
        let can_send : Int :=
          if hop.from_ = line.peers.1 then (line.trust.1 : Int) - line.balance
          else (line.trust.2 : Int) + line.balance
        if (hop.to_ : Int) > can_send then .error "not enough credit in line"
        else
          checkHops lines rest (addDelta (addDelta deltas hop.from_ (-(hop.amount : Int))) hop.to_ (hop.amount : Int))

/-- The sender check of `validate`: the first peer with a strictly negative
delta (in first-appearance order) that has no matching entry in `sigs`. -/
def firstMissingSender (deltas : List (Nat × Int)) (sigs : List PeerSig) : Option Nat :=
  ((deltas.filter fun e => decide (e.2 < 0)).map Prod.fst).find? fun sender =>
    (sigs.find? fun ps => ps.peer_idx == sender).isNone

/-- The signature loop of `validate` for a Transfer. The source binds the
verification result to `_` and discards it (`let _ = match ... key.verify(...)`),
so `verify`'s value never influences the outcome; computing `t.sighash()`
inside the `Some` arm can still panic (`none`). -/
def checkSigs (sha : Bytes → Bytes) (verify : Bytes → Bytes → Bytes → Bool)
    (keys : List Bytes) (t : Transfer) : List PeerSig → Option (Except String Unit)
  | [] => some (.ok ())
  | isig :: rest =>
    match keys.get? isig.peer_idx with
    | none => some (.error "signing key doesn't exist")
    | some key =>
      match Transfer.sighashBytes t with
      | none => none
      | some pre =>
        let _discarded := verify key isig.sig (sha pre)
        checkSigs sha verify keys t rest

/-- The from-key arm of `validate` for a Trust: existence check, then the
signature verification whose result the source binds to `_` and discards. -/
def validateTrustFrom (sha : Bytes → Bytes) (verify : Bytes → Bytes → Bytes → Bool)
    (state : State) (t : Trust) : Option (Except String Unit) :=
  match state.keys.get? t.from_ with
  | none => some (.error "from key doesn't exist")
  | some key =>
    match Trust.sighashBytes t with
    | none => none
    | some pre =>
      let _discarded := verify key t.sig (sha pre)
      some (.ok ())

/-- `validate` (`lib/src/state/mod.rs`): pure validation of an operation
against the state. `sha` and `verify` stand for the secp256k1 black boxes;
`none` models a panic inside validation. -/
def validate (sha : Bytes → Bytes) (verify : Bytes → Bytes → Bytes → Bool)
    (state : State) (op : Operation) : Option (Except String Unit) :=
  match op with
  | .Unknown => some (.error "Unknown shouldn't have been stored")
  | .Trust t =>
    (match List.lookup t.to_ state.key_indexes with
     | some idx =>
       if idx = t.from_ then some (.error "can't trust yourself")
       else validateTrustFrom sha verify state t
     | none => validateTrustFrom sha verify state t)
  | .Transfer t =>
    match checkHops state.lines t.hops [] with
    | .error e => some (.error e)
    | .ok deltas =>
      match firstMissingSender deltas t.sigs with
      | some sender => some (.error ("missing signature from sender " ++ toString sender))
      | none => checkSigs sha verify state.keys t t.sigs

/-- The hop loop of `process` for a Transfer: `get_mut(..).expect(..)` panics
(`none`) when the line is missing; otherwise the balance moves by `amount`
toward `peers.0 == hop.from` as in the source. -/
def processHops (state : State) : List Hop → Option State
  | [] => some state
  | hop :: rest =>
    match List.lookup (Line.build_key hop.from_ hop.to_) state.lines with
    | none => none
    | some line =>
      let line' :=
        { line with balance :=
            line.balance + (if line.peers.1 = hop.from_ then (hop.amount : Int) else -(hop.amount : Int)) }
      processHops
        { state with lines := setLine state.lines (Line.build_key hop.from_ hop.to_) line' }
        rest

/-- `process` (`lib/src/state/mod.rs`): apply an operation to the state. For a
Trust, resolve (or insert) the `to` key, then write the line: note that the
occupied arm writes `trust.0` when `t.from < to_idx` while the vacant arm
creates `trust = (0, amount)` in that same case, exactly as the source does. -/
def process (state : State) (op : Operation) : Option State :=
  match op with
  | .Unknown => some state
  | .Trust t =>
    let resolved :=
      match List.lookup t.to_ state.key_indexes with
      | some idx => (idx, state.keys, state.key_indexes)
      | none =>
        (state.keys.length, state.keys ++ [t.to_],
         state.key_indexes ++ [(t.to_, state.keys.length)])
    let to_idx := resolved.1
    let k := Line.build_key to_idx t.from_
    let lines :=
      match List.lookup k state.lines with
      | some line =>
        let line' :=
          if t.from_ < to_idx then { line with trust := (t.amount, line.trust.2) }
          else { line with trust := (line.trust.1, t.amount) }
        setLine state.lines k line'
      | none =>
        state.lines ++
          [(k, if t.from_ < to_idx then
                 { peers := (t.from_, to_idx), trust := (0, t.amount), balance := 0 }
               else
                 { peers := (to_idx, t.from_), trust := (t.amount, 0), balance := 0 })]
    some { keys := resolved.2.1, key_indexes := resolved.2.2, lines := lines }
  | .Transfer t => processHops state t.hops

/-- The fresh state of `registry/src/background/state.rs::init`: the server key
at index 0, its reverse-index entry, no lines. -/
def initState (serverKey : Bytes) : State :=
  { keys := [serverKey], key_indexes := [(serverKey, 0)], lines := [] }

/-- The log payload `LogStore::append_operation` writes (`registry/src/db.rs`):
`op.write_serialized` into the zeroed `op.size()`-byte region after the u16
length prefix. For a Transfer this writes only the header and hops — the
signature bytes of the region stay zero; for a Trust the signature region
45..109 likewise stays zero. -/
def appendPayload : Operation → Option Bytes
  | .Trust t => t.write_serialized (List.replicate Trust.SIZE 0)
  | .Transfer t => t.write_serialized (List.replicate t.size 0)
  | .Unknown => some []

/-- The reply the coordinator sends back (`registry/src/background/mod.rs`). -/
inductive Reply where
  | OK
  | Error (e : String)
deriving DecidableEq

/-- What one `AppendOperation` request does to the coordinator
(`registry/src/background/mod.rs::start`). `threadExit` is the source's
`return Err(err)` out of the request loop: no reply is sent and the loop is
dead. `panicked` is a panic inside the handler. `replied` carries the reply
sent plus the state and log left behind. -/
inductive AppendOutcome where
  | threadExit (err : String)
  | panicked
  | replied (r : Reply) (state : State) (log : List Bytes)
deriving DecidableEq

/-- The `AppendOperation` arm of the coordinator loop, exactly as the source
orders it: validate (an error `return`s out of the loop), then
`ls.append_operation` whose `Response` — `Error(e)` on an IO failure, modelled
by `ioErr` — is built by `map_or_else` and discarded, then `process`, then
reply `Response::OK`. -/
def handleAppend (sha : Bytes → Bytes) (verify : Bytes → Bytes → Bytes → Bool)
    (ioErr : Option String) (state : State) (log : List Bytes) (op : Operation) :
    AppendOutcome :=
  match validate sha verify state op with
  | none => .panicked
  | some (.error e) => .threadExit e
  | some (.ok _) =>
    match appendPayload op with
    | none => .panicked
    | some payload =>
      let log' := match ioErr with
        | none => log ++ [payload]
        | some _ => log
      match process state op with
      | none => .panicked
      | some state' => .replied .OK state' log'

/-- A run of the coordinator over a list of submitted operations in which every
operation is accepted and appended: each request must end in a `replied OK`
with no IO error, and the resulting state and log are returned. -/
def runAppends (sha : Bytes → Bytes) (verify : Bytes → Bytes → Bytes → Bool) :
    State → List Bytes → List Operation → Option (State × List Bytes)
  | s, log, [] => some (s, log)
  | s, log, op :: rest =>
    match handleAppend sha verify none s log op with
    | .replied .OK s' log' => runAppends sha verify s' log' rest
    | _ => none

/-- One step of the replay in `registry/src/background/state.rs::init`:
deserialize a log record's payload and `process` it. -/
def replayStep (s : State) (payload : Bytes) : Option State :=
  (Operation.deserialize payload).bind (process s)

/-- Replay a log from a given state. -/
def replayFrom (s : State) (log : List Bytes) : Option State :=
  log.foldlM replayStep s

/-- `registry/src/background/state.rs::init`: the state rebuilt from scratch by
reading every record back from the log. -/
def replayState (serverKey : Bytes) (log : List Bytes) : Option State :=
  replayFrom (initState serverKey) log

/-- Well-formedness that Rust's types give for free: `u32` fields fit in 32
bits and the serialized key is 32 bytes. -/
def Operation.wf : Operation → Prop
  | .Trust t => t.from_ < 4294967296 ∧ t.amount < 4294967296 ∧ t.to_.length = 32
  | _ => True

/-- The per-peer delta of a transfer's hop list as the spec describes it: each
hop adds its amount at `hop.to` and subtracts it at `hop.from`. -/
def specDelta : List Hop → Nat → Int
  | [], _ => 0
  | h :: rest, p =>
    (if p = h.to_ then (h.amount : Int) else 0) -
      (if p = h.from_ then (h.amount : Int) else 0) + specDelta rest p

/-- The byte string `Trust::write_serialized` produces in a zeroed 109-byte
buffer (derived below in `trust_write_eq`): header and fields in order, the
signature region left zero. -/
def trustPayload (t : Trust) : Bytes :=
  [116] ++ (le32 t.ts ++ (le32 t.from_ ++ (t.to_ ++ (le32 t.amount ++ List.replicate 64 0))))

/-! Concrete values used by the claim theorems and witnesses. -/

/-- The registry's own key (32 zero bytes stand for its serialization). -/
def serverKey : Bytes := List.replicate 32 0

/-- A second participant's key. -/
def key1 : Bytes := List.replicate 32 1

/-- A stand-in for the SHA-256 black box (its value never influences
`validate`'s outcome, see `checkSigs`). -/
def sha0 : Bytes → Bytes := fun _ => List.replicate 32 0

/-- A verifier that rejects every signature: with it, every signature in every
operation fails Schnorr verification. -/
def rejectAll : Bytes → Bytes → Bytes → Bool := fun _ _ _ => false

/-- A Trust from the server (index 0) to `key1` with amount 50. -/
def trust50 : Trust :=
  { ts := 0, from_ := 0, to_ := key1, amount := 50, sig := List.replicate 64 3 }

/-- The same Trust re-issued with amount 25. -/
def trust25 : Trust :=
  { ts := 0, from_ := 0, to_ := key1, amount := 25, sig := List.replicate 64 3 }

/-- The state after `process`ing `trust50` once from `initState serverKey`. -/
def sAfter50 : State :=
  { keys := [serverKey, key1], key_indexes := [(serverKey, 0), (key1, 1)],
    lines := [(1, { peers := (0, 1), trust := (0, 50), balance := 0 })] }

/-- The state after `process`ing `trust50` twice: the occupied arm has written
the other half of the trust pair. -/
def sAfter50twice : State :=
  { keys := [serverKey, key1], key_indexes := [(serverKey, 0), (key1, 1)],
    lines := [(1, { peers := (0, 1), trust := (50, 50), balance := 0 })] }

/-- The state after `trust50` then `trust25`. -/
def sAfter50then25 : State :=
  { keys := [serverKey, key1], key_indexes := [(serverKey, 0), (key1, 1)],
    lines := [(1, { peers := (0, 1), trust := (25, 50), balance := 0 })] }

/-- A state holding one line between peers 0 and 7 with trust `(5, 0)`. -/
def sCredit : State :=
  { keys := [], key_indexes := [],
    lines := [(Line.build_key 0 7, { peers := (0, 7), trust := (5, 0), balance := 0 })] }

/-- A one-hop transfer of amount 1 from peer 0 to peer 7: well within the
available credit of 5. -/
def tSmall : Transfer :=
  { ts := 0, hops := [{ from_ := 0, to_ := 7, amount := 1 }], sigs := [] }

/-- A state with three lines of small trust among peers 0, 1, 2. -/
def sCycle : State :=
  { keys := [], key_indexes := [],
    lines :=
      [(Line.build_key 0 1, { peers := (0, 1), trust := (1, 0), balance := 0 }),
       (Line.build_key 1 2, { peers := (1, 2), trust := (2, 0), balance := 0 }),
       (Line.build_key 0 2, { peers := (0, 2), trust := (0, 0), balance := 0 })] }

/-- A cyclic transfer of amount 100 around peers 0 → 1 → 2 → 0: every per-peer
delta is zero, so no signature is required. -/
def tCycle : Transfer :=
  { ts := 0,
    hops :=
      [{ from_ := 0, to_ := 1, amount := 100 },
       { from_ := 1, to_ := 2, amount := 100 },
       { from_ := 2, to_ := 0, amount := 100 }],
    sigs := [] }

/-- `sCycle` after `process`ing `tCycle`. -/
def sCycleAfter : State :=
  { keys := [], key_indexes := [],
    lines :=
      [(Line.build_key 0 1, { peers := (0, 1), trust := (1, 0), balance := 100 }),
       (Line.build_key 1 2, { peers := (1, 2), trust := (2, 0), balance := 100 }),
       (Line.build_key 0 2, { peers := (0, 2), trust := (0, 0), balance := -100 })] }

/-- A Trust whose signature is garbage — no verifier accepts it. -/
def trustBadSig : Trust :=
  { ts := 0, from_ := 0, to_ := key1, amount := 10, sig := List.replicate 64 7 }

/-- A transfer over a line that does not exist in `initState serverKey`. -/
def tNoLine : Transfer :=
  { ts := 0, hops := [{ from_ := 0, to_ := 1, amount := 5 }], sigs := [] }

/-- A one-hop transfer with no signatures. -/
def tOneHop : Transfer :=
  { ts := 0, hops := [{ from_ := 0, to_ := 1, amount := 2 }], sigs := [] }

/-- The intended canonical serialization of a two-hop transfer (tag, ts,
nhops = 2, nsigs = 0, two 12-byte hop records), per the spec's layout. -/
def intendedTwoHop : Bytes :=
  [120] ++ le32 0 ++ [2, 0] ++
    Hop.bytes { from_ := 0, to_ := 1, amount := 4 } ++
    Hop.bytes { from_ := 1, to_ := 2, amount := 4 }

/-- A truncated tag-`'x'` record: the hop-count byte is 0 but the
signature-count byte is 2, so the canonical layout implies
`7 + 0*12 + 2*68 = 143` bytes, of which only 7 are present. -/
def truncatedNoHops : Bytes := [120, 0, 0, 0, 0, 0, 2]

/-- The state of the spec's missing-signature scenario: after the server
trusts `key1` with 50, so the line `(0,1)` has trust `(0, 50)`. -/
def sScenario : State :=
  { keys := [serverKey, key1], key_indexes := [(serverKey, 0), (key1, 1)],
    lines := [(Line.build_key 0 1, { peers := (0, 1), trust := (0, 50), balance := 0 })] }

/-- The spec's scenario transfer: `hop(from=1, to=0, amount=10)`, no
signatures. -/
def tScenario : Transfer :=
  { ts := 0, hops := [{ from_ := 1, to_ := 0, amount := 10 }], sigs := [] }

/-- The delta vector `checkHops` computes for `tScenario`. -/
def dScenario : List (Nat × Int) := [(1, -10), (0, 10)]

/-- The single-operation history for the replay witness. -/
def opsW : List Operation := [.Trust trust50]

/-- The log payload the coordinator writes for `trust50`. -/
def logW : List Bytes :=
  [(Trust.write_serialized trust50 (List.replicate 109 0)).getD []]

/-! Helper lemmas about the byte-level primitives. -/

theorem le32_length (n : Nat) : (le32 n).length = 4 := rfl

theorem copyTo_length {buf src out : Bytes} {a b : Nat}
    (h : copyTo buf a b src = some out) : out.length = buf.length := by
  unfold copyTo at h
  split at h
  · rename_i hc
    obtain ⟨h1, h2, h3⟩ := hc
    cases h
    simp only [List.length_append, List.length_take, List.length_drop]
    omega
  · exact absurd h (by simp)

theorem copyTo_none {buf src : Bytes} {a b : Nat} (h : buf.length < b) :
    copyTo buf a b src = none := by
  unfold copyTo
  rw [if_neg]
  intro hc
  exact absurd hc.2.2 (by omega)

theorem copyTo_concat (w tl src : Bytes) (b : Nat) (h1 : src.length = b - w.length)
    (h2 : w.length ≤ b) (h3 : b ≤ w.length + tl.length) :
    copyTo (w ++ tl) w.length b src = some (w ++ (src ++ tl.drop (b - w.length))) := by
  unfold copyTo
  rw [if_pos ⟨h1, h2, by simp only [List.length_append]; omega⟩]
  have hd : (w ++ tl).drop b = tl.drop (b - w.length) := by
    conv_lhs => rw [show b = w.length + (b - w.length) from (Nat.add_sub_cancel' h2).symm]
    rw [List.drop_append]
  rw [List.take_left, hd, List.append_assoc]

theorem slice_concat (w mid tl : Bytes) (a b : Nat) (ha : w.length = a)
    (hb : mid.length = b - a) (hab : a ≤ b) :
    readSlice (w ++ (mid ++ tl)) a b = some mid := by
  unfold readSlice
  rw [if_pos ⟨hab, by simp only [List.length_append]; omega⟩]
  rw [List.drop_left' ha, List.take_left' hb]

theorem read32_le32 (n : Nat) : read32 (le32 n) = n % 4294967296 := by
  simp [read32, le32]
  omega

/-! Helper lemmas about the Transfer serializer: `size_nosig` and `size` count
two bytes fewer than `write_serialized` writes, so the writes run off the end
of the buffer. -/

theorem Hop.bytes_length (h : Hop) : h.bytes.length = 12 := by
  simp [Hop.bytes, le32_length]

theorem writeHops_length {hops : List Hop} {i : Nat} {buf out : Bytes}
    (h : writeHops hops i buf = some out) : out.length = buf.length := by
  induction hops generalizing i buf with
  | nil => cases h; rfl
  | cons hd tl ih =>
    unfold writeHops at h
    cases hc : copyTo buf (7 + i * 12) (7 + (i + 1) * 12) hd.bytes with
    | none => rw [hc] at h; exact absurd h (by simp)
    | some b' =>
      rw [hc] at h
      simp only [Option.bind] at h
      rw [ih h, copyTo_length hc]

theorem writeHops_none {hops : List Hop} {i : Nat} {buf : Bytes} (hne : hops ≠ [])
    (h : buf.length < 7 + (i + hops.length) * 12) : writeHops hops i buf = none := by
  induction hops generalizing i buf with
  | nil => exact absurd rfl hne
  | cons hd tl ih =>
    unfold writeHops
    cases tl with
    | nil =>
      rw [copyTo_none (by simp at h ⊢; omega)]
      rfl
    | cons hd2 tl2 =>
      cases hc : copyTo buf (7 + i * 12) (7 + (i + 1) * 12) hd.bytes with
      | none => rfl
      | some b' =>
        simp only [Option.bind]
        exact ih (by simp) (by rw [copyTo_length hc]; simp at h ⊢; omega)

theorem copyTo_some_le {buf src out : Bytes} {a b : Nat}
    (h : copyTo buf a b src = some out) : b ≤ buf.length := by
  unfold copyTo at h
  split at h
  · rename_i hc; exact hc.2.2
  · exact absurd h (by simp)

theorem transfer_write_none {t : Transfer} {buf : Bytes}
    (h : buf.length < 7 + t.hops.length * 12) : t.write_serialized buf = none := by
  unfold Transfer.write_serialized
  cases h1 : copyTo buf 0 1 [120] with
  | none => rfl
  | some b1 =>
  simp only [Option.bind]
  cases h2 : copyTo b1 1 5 (le32 t.ts) with
  | none => rfl
  | some b2 =>
  simp only [Option.bind]
  by_cases hn : t.hops.length ≤ 255
  · rw [if_pos hn]
    simp only [Option.bind]
    have hb2 : b2.length = buf.length := by rw [copyTo_length h2, copyTo_length h1]
    cases h3 : copyTo b2 5 6 [t.hops.length] with
    | none => rfl
    | some b3 =>
    simp only [Option.bind]
    by_cases hs : t.sigs.length ≤ 255
    · rw [if_pos hs]
      simp only [Option.bind]
      cases h4 : copyTo b3 6 7 [t.sigs.length] with
      | none => rfl
      | some b4 =>
      simp only [Option.bind]
      by_cases hone : t.hops = []
      · exfalso
        have h7 := copyTo_some_le h4
        rw [copyTo_length h3, hb2] at h7
        rw [hone] at h
        simp at h
        omega
      · refine writeHops_none hone ?_
        rw [copyTo_length h4, copyTo_length h3, hb2]
        omega
    · rw [if_neg hs]
  · rw [if_neg hn]

theorem sighashBytes_none (t : Transfer) : t.sighashBytes = none := by
  unfold Transfer.sighashBytes
  exact transfer_write_none (by simp [Transfer.size_nosig, Hop.SIZE])

theorem transfer_write_length {t : Transfer} {buf out : Bytes}
    (h : t.write_serialized buf = some out) : out.length = buf.length := by
  unfold Transfer.write_serialized at h
  cases h1 : copyTo buf 0 1 [120] with
  | none => rw [h1] at h; exact absurd h (by simp)
  | some b1 =>
  rw [h1] at h; simp only [Option.bind] at h
  cases h2 : copyTo b1 1 5 (le32 t.ts) with
  | none => rw [h2] at h; exact absurd h (by simp)
  | some b2 =>
  rw [h2] at h; simp only [Option.bind] at h
  by_cases hn : t.hops.length ≤ 255
  · rw [if_pos hn] at h; simp only [Option.bind] at h
    cases h3 : copyTo b2 5 6 [t.hops.length] with
    | none => rw [h3] at h; exact absurd h (by simp)
    | some b3 =>
    rw [h3] at h; simp only [Option.bind] at h
    by_cases hs : t.sigs.length ≤ 255
    · rw [if_pos hs] at h; simp only [Option.bind] at h
      cases h4 : copyTo b3 6 7 [t.sigs.length] with
      | none => rw [h4] at h; exact absurd h (by simp)
      | some b4 =>
      rw [h4] at h; simp only [Option.bind] at h
      rw [writeHops_length h, copyTo_length h4, copyTo_length h3, copyTo_length h2,
        copyTo_length h1]
    · rw [if_neg hs] at h; exact absurd h (by simp)
  · rw [if_neg hn] at h; exact absurd h (by simp)

theorem writeSigs_none {sigs : List PeerSig} {start i : Nat} {buf : Bytes} (hne : sigs ≠ [])
    (h : buf.length < start + (i + sigs.length) * 68) : writeSigs sigs start i buf = none := by
  induction sigs generalizing i buf with
  | nil => exact absurd rfl hne
  | cons hd tl ih =>
    unfold writeSigs
    cases tl with
    | nil =>
      rw [copyTo_none (by simp at h ⊢; omega)]
      rfl
    | cons hd2 tl2 =>
      cases hc : copyTo buf (start + i * 68) (start + (i + 1) * 68) hd.bytes with
      | none => rfl
      | some b' =>
        simp only [Option.bind]
        exact ih (by simp) (by rw [copyTo_length hc]; simp at h ⊢; omega)

theorem as_bytes_none (t : Transfer) : t.as_bytes = none := by
  unfold Transfer.as_bytes
  cases hsig : t.sigs with
  | nil =>
    rw [transfer_write_none (by simp [Transfer.size, Transfer.size_nosig, Hop.SIZE, PeerSig.SIZE, hsig])]
    rfl
  | cons hd tl =>
    cases hw : t.write_serialized (List.replicate t.size 0) with
    | none => rfl
    | some b =>
      simp only [Option.bind]
      refine writeSigs_none (by simp) ?_
      rw [transfer_write_length hw]
      simp [Transfer.size, Transfer.size_nosig, Hop.SIZE, PeerSig.SIZE, hsig]

/-! Helper lemmas about the Trust serializer: in a zeroed 109-byte buffer it
produces exactly `trustPayload`. -/

theorem copyTo_split (p w tl src out : Bytes) (a b : Nat) (hp : p = w ++ tl)
    (ha : w.length = a) (hout : w ++ (src ++ tl.drop (b - a)) = out)
    (h1 : src.length = b - a) (h2 : a ≤ b) (h3 : b ≤ a + tl.length) :
    copyTo p a b src = some out := by
  subst hp
  subst ha
  subst hout
  exact copyTo_concat w tl src b h1 h2 h3

theorem readSlice_split (p w mid tl : Bytes) (a b : Nat) (hp : p = w ++ (mid ++ tl))
    (ha : w.length = a) (hb : mid.length = b - a) (hab : a ≤ b) :
    readSlice p a b = some mid := by
  subst hp
  subst ha
  exact slice_concat w mid tl w.length b rfl hb hab

theorem trust_write_eq (t : Trust) (h32 : t.to_.length = 32) :
    t.write_serialized (List.replicate 109 0) = some (trustPayload t) := by
  have e1 : copyTo (List.replicate 109 0) 0 1 [116] =
      some ([116] ++ List.replicate 108 0) :=
    copyTo_split _ [] (List.replicate 109 0) [116] _ 0 1 (by simp) (by simp)
      (by simp) (by simp) (by simp) (by simp)
  have e2 : copyTo ([116] ++ List.replicate 108 0) 1 5 (le32 t.ts) =
      some ([116] ++ (le32 t.ts ++ List.replicate 104 0)) :=
    copyTo_split _ [116] (List.replicate 108 0) (le32 t.ts) _ 1 5 (by simp) (by simp)
      (by simp) (by simp [le32_length]) (by simp) (by simp)
  have e3 : copyTo ([116] ++ (le32 t.ts ++ List.replicate 104 0)) 5 9 (le32 t.from_) =
      some ([116] ++ (le32 t.ts ++ (le32 t.from_ ++ List.replicate 100 0))) :=
    copyTo_split _ ([116] ++ le32 t.ts) (List.replicate 104 0) (le32 t.from_) _ 5 9
      (by simp) (by simp [le32_length]) (by simp) (by simp [le32_length]) (by simp)
      (by simp [le32_length])
  have e4 : copyTo ([116] ++ (le32 t.ts ++ (le32 t.from_ ++ List.replicate 100 0))) 9 41 t.to_ =
      some ([116] ++ (le32 t.ts ++ (le32 t.from_ ++ (t.to_ ++ List.replicate 68 0)))) :=
    copyTo_split _ ([116] ++ (le32 t.ts ++ le32 t.from_)) (List.replicate 100 0) t.to_ _ 9 41
      (by simp) (by simp [le32_length]) (by simp) (by simp [le32_length, h32]) (by simp)
      (by simp [le32_length])
  have e5 : copyTo ([116] ++ (le32 t.ts ++ (le32 t.from_ ++ (t.to_ ++ List.replicate 68 0))))
      41 45 (le32 t.amount) = some (trustPayload t) :=
    copyTo_split _ ([116] ++ (le32 t.ts ++ (le32 t.from_ ++ t.to_))) (List.replicate 68 0)
      (le32 t.amount) _ 41 45
      (by simp) (by simp [le32_length, h32]) (by simp [trustPayload]) (by simp [le32_length])
      (by simp) (by simp [le32_length, h32])
  unfold Trust.write_serialized
  rw [e1]
  simp only [Option.bind]
  rw [e2]
  simp only [Option.bind]
  rw [e3]
  simp only [Option.bind]
  rw [e4]
  simp only [Option.bind]
  rw [e5]

theorem trustPayload_length (t : Trust) (h32 : t.to_.length = 32) :
    (trustPayload t).length = 109 := by
  simp [trustPayload, le32_length, h32]

theorem trustPayload_deserialize (t : Trust) (h32 : t.to_.length = 32) :
    Operation.deserialize (trustPayload t) =
      some (.Trust { ts := t.ts % 4294967296, from_ := t.from_ % 4294967296,
                     to_ := t.to_, amount := t.amount % 4294967296,
                     sig := List.replicate 64 0 }) := by
  have r1 : readSlice (trustPayload t) 1 5 = some (le32 t.ts) :=
    readSlice_split _ [116] (le32 t.ts)
      (le32 t.from_ ++ (t.to_ ++ (le32 t.amount ++ List.replicate 64 0))) 1 5
      (by simp [trustPayload]) (by simp) (by simp [le32_length]) (by omega)
  have r2 : readSlice (trustPayload t) 5 9 = some (le32 t.from_) :=
    readSlice_split _ ([116] ++ le32 t.ts) (le32 t.from_)
      (t.to_ ++ (le32 t.amount ++ List.replicate 64 0)) 5 9
      (by simp [trustPayload]) (by simp [le32_length]) (by simp [le32_length]) (by omega)
  have r3 : readSlice (trustPayload t) 9 41 = some t.to_ :=
    readSlice_split _ ([116] ++ (le32 t.ts ++ le32 t.from_)) t.to_
      (le32 t.amount ++ List.replicate 64 0) 9 41
      (by simp [trustPayload]) (by simp [le32_length]) (by simp [h32]) (by omega)
  have r4 : readSlice (trustPayload t) 41 45 = some (le32 t.amount) :=
    readSlice_split _ ([116] ++ (le32 t.ts ++ (le32 t.from_ ++ t.to_))) (le32 t.amount)
      (List.replicate 64 0) 41 45
      (by simp [trustPayload]) (by simp [le32_length, h32]) (by simp [le32_length]) (by omega)
  have r5 : readSlice (trustPayload t) 45 109 = some (List.replicate 64 0) :=
    readSlice_split _ ([116] ++ (le32 t.ts ++ (le32 t.from_ ++ (t.to_ ++ le32 t.amount))))
      (List.replicate 64 0) [] 45 109
      (by simp [trustPayload]) (by simp [le32_length, h32]) (by simp) (by omega)
  have hget : (trustPayload t).get? 0 = some 116 := by
    simp [trustPayload]
  unfold Operation.deserialize
  rw [hget]
  unfold Trust.deserialize
  rw [r1]
  simp only [Option.bind]
  rw [r2]
  simp only [Option.bind]
  rw [r3]
  simp only [Option.bind]
  rw [r4]
  simp only [Option.bind]
  rw [r5]
  simp only [Option.bind, Option.map]
  rw [read32_le32, read32_le32, read32_le32]


/-! Helper lemmas about `validate` and the coordinator: a Transfer that
`validate` accepts has no signatures (a signature with an existing key makes
`t.sighash()` panic, one with a missing key is an error), and a Transfer with
no signatures cannot be serialized into the log (the buffer is two bytes
short), so every operation the coordinator accepts and appends is a Trust. -/

theorem checkSigs_ok {sha : Bytes → Bytes} {verify : Bytes → Bytes → Bytes → Bool}
    {keys : List Bytes} {t : Transfer} {sigs : List PeerSig}
    (h : checkSigs sha verify keys t sigs = some (.ok ())) : sigs = [] := by
  cases sigs with
  | nil => rfl
  | cons isig rest =>
    exfalso
    simp only [checkSigs] at h
    cases hk : keys.get? isig.peer_idx with
    | none => rw [hk] at h; exact absurd h (by simp)
    | some key =>
      rw [hk, sighashBytes_none t] at h
      exact absurd h (by simp)

theorem validate_transfer_ok_sigs {sha : Bytes → Bytes} {verify : Bytes → Bytes → Bytes → Bool}
    {s : State} {t : Transfer}
    (h : validate sha verify s (.Transfer t) = some (.ok ())) : t.sigs = [] := by
  simp only [validate] at h
  cases hch : checkHops s.lines t.hops [] with
  | error e => simp only [hch] at h; exact absurd h (by simp)
  | ok ds =>
    simp only [hch] at h
    cases hm : firstMissingSender ds t.sigs with
    | some n => simp only [hm] at h; exact absurd h (by simp)
    | none =>
      simp only [hm] at h
      exact checkSigs_ok h

theorem process_trust_congr (s : State) (ts1 ts2 f : Nat) (pk : Bytes) (a : Nat)
    (g1 g2 : Bytes) :
    process s (.Trust { ts := ts1, from_ := f, to_ := pk, amount := a, sig := g1 }) =
    process s (.Trust { ts := ts2, from_ := f, to_ := pk, amount := a, sig := g2 }) := rfl

theorem handleAppend_replay (sha : Bytes → Bytes) (verify : Bytes → Bytes → Bytes → Bool)
    (sk : Bytes) {s : State} {log : List Bytes} {op : Operation} {s' : State}
    {log' : List Bytes} (hw : op.wf)
    (h : handleAppend sha verify none s log op = .replied .OK s' log')
    (hr : replayFrom (initState sk) log = some s) :
    replayFrom (initState sk) log' = some s' := by
  unfold handleAppend at h
  cases hv : validate sha verify s op with
  | none => rw [hv] at h; exact absurd h (by simp)
  | some r =>
    rw [hv] at h
    cases r with
    | error e => exact absurd h (by simp)
    | ok u =>
      cases u
      cases hp : appendPayload op with
      | none => rw [hp] at h; exact absurd h (by simp)
      | some payload =>
        rw [hp] at h
        cases hpr : process s op with
        | none => rw [hpr] at h; exact absurd h (by simp)
        | some s2 =>
          rw [hpr] at h
          simp only at h
          injection h with h1 h2 h3
          subst h2
          subst h3
          cases op with
          | Unknown =>
            exfalso
            simp only [validate] at hv
            exact absurd hv (by simp)
          | Transfer t =>
            exfalso
            have hsig : t.sigs = [] := validate_transfer_ok_sigs hv
            have : appendPayload (.Transfer t) = none := by
              unfold appendPayload
              exact transfer_write_none
                (by simp [Transfer.size, Transfer.size_nosig, Hop.SIZE, PeerSig.SIZE, hsig])
            rw [this] at hp
            exact absurd hp (by simp)
          | Trust t =>
            obtain ⟨hf, ha, h32⟩ := hw
            have hpl : appendPayload (.Trust t) = some (trustPayload t) := by
              unfold appendPayload
              exact trust_write_eq t h32
            rw [hpl] at hp
            injection hp with hp
            subst hp
            have hcongr : process s (.Trust { ts := t.ts % 4294967296, from_ := t.from_, to_ := t.to_, amount := t.amount, sig := List.replicate 64 0 }) = process s (.Trust t) :=
              process_trust_congr s (t.ts % 4294967296) t.ts t.from_ t.to_ t.amount
                (List.replicate 64 0) t.sig
            have hstep : replayStep s (trustPayload t) = some s2 := by
              unfold replayStep
              rw [trustPayload_deserialize t h32]
              simp only [Option.some_bind]
              rw [Nat.mod_eq_of_lt hf, Nat.mod_eq_of_lt ha]
              exact hcongr.trans hpr
            rw [replayFrom, List.foldlM_append]
            rw [replayFrom] at hr
            rw [hr]
            simp [List.foldlM, hstep]

theorem runAppends_replay (sha : Bytes → Bytes) (verify : Bytes → Bytes → Bytes → Bool)
    (sk : Bytes) (ops : List Operation) :
    ∀ (s : State) (log : List Bytes) (s' : State) (log' : List Bytes),
      (∀ op ∈ ops, op.wf) → replayFrom (initState sk) log = some s →
      runAppends sha verify s log ops = some (s', log') →
      replayFrom (initState sk) log' = some s' := by
  induction ops with
  | nil =>
    intro s log s' log' _ hr h
    unfold runAppends at h
    injection h with h
    injection h with h1 h2
    subst h1
    subst h2
    exact hr
  | cons op rest ih =>
    intro s log s' log' hwf hr h
    unfold runAppends at h
    cases hh : handleAppend sha verify none s log op with
    | threadExit e => rw [hh] at h; exact absurd h (by simp)
    | panicked => rw [hh] at h; exact absurd h (by simp)
    | replied r s1 log1 =>
      rw [hh] at h
      cases r with
      | Error e => exact absurd h (by simp)
      | OK =>
        have hr1 : replayFrom (initState sk) log1 = some s1 :=
          handleAppend_replay sha verify sk (hwf op (by simp)) hh hr
        exact ih s1 log1 s' log' (fun o ho => hwf o (by simp [ho])) hr1 h



/-! Helper lemmas for the sender check of `validate`: the delta vector
`checkHops` accumulates holds, per peer, exactly the spec's per-peer delta. -/

theorem addDelta_lookup (ds : List (Nat × Int)) (p : Nat) (d : Int) (q : Nat) :
    ((addDelta ds p d).lookup q).getD 0 =
      ((ds.lookup q).getD 0) + (if q = p then d else 0) := by
  induction ds with
  | nil =>
    simp only [addDelta, List.lookup]
    by_cases hq : q = p
    · rw [if_pos hq, show (q == p) = true from beq_iff_eq.mpr hq]
      simp
    · rw [if_neg hq, show (q == p) = false from beq_eq_false_iff_ne.mpr hq]
      simp
  | cons e rest ih =>
    by_cases he : e.1 = p
    · rw [show addDelta (e :: rest) p d = (e.1, e.2 + d) :: rest from by simp [addDelta, he]]
      by_cases hq : q = e.1
      · simp only [List.lookup, show (q == e.1) = true from beq_iff_eq.mpr hq]
        rw [if_pos (by rw [hq, he])]
        simp
      · simp only [List.lookup, show (q == e.1) = false from beq_eq_false_iff_ne.mpr hq]
        rw [if_neg (fun hqp => hq (hqp.trans he.symm))]
        simp
    · rw [show addDelta (e :: rest) p d = e :: addDelta rest p d from by simp [addDelta, he]]
      by_cases hq : q = e.1
      · simp only [List.lookup, show (q == e.1) = true from beq_iff_eq.mpr hq]
        rw [if_neg (fun hqp => he (hq.symm.trans hqp))]
        simp
      · simp only [List.lookup, show (q == e.1) = false from beq_eq_false_iff_ne.mpr hq]
        exact ih

theorem addDelta_keys_mem {ds : List (Nat × Int)} {p : Nat} {d : Int} {x : Nat}
    (h : x ∈ (addDelta ds p d).map Prod.fst) : x ∈ ds.map Prod.fst ∨ x = p := by
  induction ds with
  | nil =>
    simp only [addDelta, List.map_cons, List.map_nil] at h
    simp at h
    exact Or.inr h
  | cons e rest ih =>
    by_cases he : e.1 = p
    · rw [show addDelta (e :: rest) p d = (e.1, e.2 + d) :: rest from by simp [addDelta, he]] at h
      simp only [List.map_cons] at h
      rcases List.mem_cons.mp h with h1 | h1
      · exact Or.inl (by simp [h1])
      · exact Or.inl (List.mem_cons_of_mem _ h1)
    · rw [show addDelta (e :: rest) p d = e :: addDelta rest p d from by simp [addDelta, he]] at h
      simp only [List.map_cons] at h
      rcases List.mem_cons.mp h with h1 | h1
      · exact Or.inl (by simp [h1])
      · rcases ih h1 with h2 | h2
        · exact Or.inl (List.mem_cons_of_mem _ h2)
        · exact Or.inr h2

theorem addDelta_nodup {ds : List (Nat × Int)} {p : Nat} {d : Int}
    (h : (ds.map Prod.fst).Nodup) : ((addDelta ds p d).map Prod.fst).Nodup := by
  induction ds with
  | nil => simp [addDelta]
  | cons e rest ih =>
    simp only [List.map_cons, List.nodup_cons] at h
    by_cases he : e.1 = p
    · rw [show addDelta (e :: rest) p d = (e.1, e.2 + d) :: rest from by simp [addDelta, he]]
      simp only [List.map_cons, List.nodup_cons]
      exact h
    · rw [show addDelta (e :: rest) p d = e :: addDelta rest p d from by simp [addDelta, he]]
      simp only [List.map_cons, List.nodup_cons]
      refine ⟨fun hmem => ?_, ih h.2⟩
      rcases addDelta_keys_mem hmem with h1 | h1
      · exact h.1 h1
      · exact he h1

theorem lookup_of_mem_nodup {ds : List (Nat × Int)} {n : Nat} {d : Int}
    (hnd : (ds.map Prod.fst).Nodup) (hmem : (n, d) ∈ ds) : ds.lookup n = some d := by
  induction ds with
  | nil => simp at hmem
  | cons e rest ih =>
    simp only [List.map_cons, List.nodup_cons] at hnd
    rcases List.mem_cons.mp hmem with he | hrest
    · rw [← he]
      simp [List.lookup]
    · have hne : n ≠ e.1 := by
        intro hq
        exact hnd.1 (by rw [← hq]; exact List.mem_map_of_mem Prod.fst hrest)
      simp only [List.lookup, show (n == e.1) = false from beq_eq_false_iff_ne.mpr hne]
      exact ih hnd.2 hrest

theorem checkHops_delta {lines : List (Nat × Line)} :
    ∀ {hops : List Hop} {acc ds : List (Nat × Int)},
      checkHops lines hops acc = .ok ds →
      (∀ q, ((ds.lookup q).getD 0) = ((acc.lookup q).getD 0) + specDelta hops q) ∧
        ((acc.map Prod.fst).Nodup → (ds.map Prod.fst).Nodup) := by
  intro hops
  induction hops with
  | nil =>
    intro acc ds h
    simp only [checkHops] at h
    injection h with h
    subst h
    exact ⟨fun q => by simp [specDelta], id⟩
  | cons hop rest ih =>
    intro acc ds h
    simp only [checkHops] at h
    by_cases hz : hop.amount = 0
    · rw [if_pos hz] at h; exact absurd h (by simp)
    · rw [if_neg hz] at h
      cases hline : List.lookup (Line.build_key hop.from_ hop.to_) lines with
      | none => rw [hline] at h; exact absurd h (by simp)
      | some line =>
        rw [hline] at h
        simp only at h
        have key : checkHops lines rest
            (addDelta (addDelta acc hop.from_ (-(hop.amount : Int))) hop.to_ (hop.amount : Int)) =
              .ok ds →
            (∀ q, ((ds.lookup q).getD 0) = ((acc.lookup q).getD 0) + specDelta (hop :: rest) q) ∧
              ((acc.map Prod.fst).Nodup → (ds.map Prod.fst).Nodup) := by
          intro h2
          obtain ⟨ihd, ihn⟩ := ih h2
          refine ⟨fun q => ?_, fun hnd => ihn (addDelta_nodup (addDelta_nodup hnd))⟩
          rw [ihd q, addDelta_lookup, addDelta_lookup]
          simp only [specDelta]
          split_ifs <;> omega
        split at h
        · split at h
          · exact absurd h (by simp)
          · exact key h
        · split at h
          · exact absurd h (by simp)
          · exact key h

/-- C9: `validate` accumulates per-peer deltas over all hops — subtracting
each hop's amount at its source and adding it at its destination — and when
the per-hop checks pass and some peer with a strictly negative total delta
has no entry in the transfer's signature list, it answers the error
"missing signature from sender N" naming that peer's index (the first such
peer in first-appearance order). -/
theorem validate_missing_sender (sha : Bytes → Bytes) (verify : Bytes → Bytes → Bytes → Bool)
    (s : State) (t : Transfer) (ds : List (Nat × Int)) (n : Nat)
    (hh : checkHops s.lines t.hops [] = .ok ds)
    (hm : firstMissingSender ds t.sigs = some n) :
    specDelta t.hops n < 0 ∧ (∀ ps ∈ t.sigs, ps.peer_idx ≠ n) ∧
      validate sha verify s (.Transfer t) =
        some (.error ("missing signature from sender " ++ toString n)) := by
  have hpred := List.find?_some hm
  have hmem := List.mem_of_find?_eq_some hm
  have hnosig : ∀ ps ∈ t.sigs, ps.peer_idx ≠ n := by
    intro ps hps
    have : t.sigs.find? (fun ps => ps.peer_idx == n) = none :=
      Option.isNone_iff_eq_none.mp hpred
    have := List.find?_eq_none.mp this ps hps
    simpa using this
  obtain ⟨e, hef, he1⟩ := List.mem_map.mp hmem
  have hin : e ∈ ds := (List.mem_filter.mp hef).1
  have hneg : e.2 < 0 := by
    have := (List.mem_filter.mp hef).2
    simpa using this
  obtain ⟨hdelta, hnodup⟩ := checkHops_delta hh
  have hds : ds.lookup n = some e.2 := by
    refine lookup_of_mem_nodup (hnodup (by simp)) ?_
    rw [← he1]
    simpa using hin
  have hsd : specDelta t.hops n < 0 := by
    have := hdelta n
    rw [hds] at this
    simp only [List.lookup_nil, Option.getD_none, Option.getD_some] at this
    omega
  refine ⟨hsd, hnosig, ?_⟩
  simp only [validate, hh, hm]



/-! Helper lemmas about deserialization of truncated buffers. -/

theorem trust_deserialize_short {buf : Bytes} (h : buf.length < 109) :
    Trust.deserialize buf = none := by
  unfold Trust.deserialize
  have h5 : readSlice buf 45 109 = none := by
    unfold readSlice
    rw [if_neg]
    intro hc
    omega
  cases r1 : readSlice buf 1 5 with
  | none => rfl
  | some tsb =>
  simp only [Option.some_bind]
  cases r2 : readSlice buf 5 9 with
  | none => rfl
  | some frb =>
  simp only [Option.some_bind]
  cases r3 : readSlice buf 9 41 with
  | none => rfl
  | some pk =>
  simp only [Option.some_bind]
  cases r4 : readSlice buf 41 45 with
  | none => rfl
  | some amb =>
  simp only [Option.some_bind]
  rw [h5]
  rfl

theorem readHops_short {buf : Bytes} {n : Nat} (hn : n ≠ 0) (h : buf.length < 19) :
    readHops buf n 0 n = none := by
  cases n with
  | zero => exact absurd rfl hn
  | succ m =>
    simp only [readHops]
    rw [if_pos (Nat.succ_pos m)]
    have hf : Hop.from_bytes (buf.drop 7) = none := by
      unfold Hop.from_bytes
      rw [if_neg]
      simp only [List.length_drop]
      omega
    rw [hf]
    rfl

/-! The claims. -/

/-- C1: the claim says `validate` rejects a hop with "not enough credit"
exactly when `hop.amount` exceeds the available credit on the line. The code
compares `hop.to` — a peer index — against the credit instead
(`lib/src/state/mod.rs:70`): here a hop of amount 1 over a line with 5
available credit is rejected only because its destination index 7 exceeds 5. -/
theorem credit_check_compares_hop_to :
    validate sha0 rejectAll sCredit (.Transfer tSmall) =
      some (.error "not enough credit in line") := rfl

/-- C2: the claim says a validation error is replied to the submitter and the
coordinator keeps serving, and an append IO error is replied with the state
left unmutated. The code instead `return`s out of the request loop on a
validation error (no reply, loop dead), and on an IO error discards the error
response, still runs `process`, and replies OK: here the state after the
failed append differs from the initial state while the log is empty. -/
theorem append_error_paths :
    handleAppend sha0 rejectAll none (initState serverKey) [] (.Transfer tNoLine) =
        .threadExit "no line available for transfer" ∧
      handleAppend sha0 rejectAll (some "io error") (initState serverKey) [] (.Trust trust50) =
        .replied .OK sAfter50 [] ∧
      sAfter50 ≠ initState serverKey :=
  ⟨rfl, rfl, by decide⟩

/-- C3: the claim says an operation whose signature fails Schnorr verification
is never accepted. `validate` binds every verification result to `_` and
discards it (`lib/src/state/mod.rs:39-42`), so with a verifier that rejects
every signature a Trust carrying a garbage signature still validates ok. -/
theorem invalid_signature_accepted :
    validate sha0 rejectAll (initState serverKey) (.Trust trustBadSig) =
      some (.ok ()) := rfl

/-- C4: the claim says `deserialize(serialize(op)) == op` for every Transfer
with at most 255 hops and signatures. Serialization of a Transfer always
panics — `size()` misses the two length bytes, so the writes run off the
buffer — and deserialization of a correctly laid out two-hop record also
panics, because its loops count bytes against entry counts. -/
theorem serialization_roundtrip_broken :
    (∀ t : Transfer, t.as_bytes = none) ∧ Operation.deserialize intendedTwoHop = none :=
  ⟨as_bytes_none, rfl⟩

/-- C5: the claim says re-applying a Trust overwrites the same half of the
line's trust pair, so applying it twice equals applying it once, and
re-trusting with 25 yields trust `(0, 25)`. The occupied arm of `process`
writes the opposite half from the one the vacant arm creates
(`lib/src/state/mod.rs:152-177`): applying `trust50` twice yields
`trust = (50, 50)`, and re-trusting with 25 yields `(25, 50)`. -/
theorem trust_reapply_not_idempotent :
    process (initState serverKey) (.Trust trust50) = some sAfter50 ∧
      process sAfter50 (.Trust trust50) = some sAfter50twice ∧
      sAfter50twice ≠ sAfter50 ∧
      process sAfter50 (.Trust trust25) = some sAfter50then25 ∧
      List.lookup 1 sAfter50then25.lines =
        some { peers := (0, 1), trust := (25, 50), balance := 0 } :=
  ⟨rfl, rfl, by decide, rfl, rfl⟩

/-- C6: for any sequence of operations each accepted and successfully appended
by the coordinator, replaying the on-disk log from the fresh bootstrap state
through `process` rebuilds exactly the in-memory state. (Only Trust
operations can reach a successful append: an accepted Transfer has no
signatures and its log serialization then panics; a Trust's log record drops
only its signature bytes, which `process` ignores.) -/
theorem coordinator_state_eq_replay (sha : Bytes → Bytes)
    (verify : Bytes → Bytes → Bytes → Bool) (sk : Bytes) (ops : List Operation)
    (s : State) (log : List Bytes) (hwf : ∀ op ∈ ops, op.wf)
    (h : runAppends sha verify (initState sk) [] ops = some (s, log)) :
    replayState sk log = some s :=
  runAppends_replay sha verify sk ops (initState sk) [] s log hwf rfl h

/-- Witness for C6: one accepted-and-appended Trust; replaying its log record
rebuilds the in-memory state. -/
theorem coordinator_state_eq_replay_witness :
    replayState serverKey logW = some sAfter50 :=
  coordinator_state_eq_replay sha0 rejectAll serverKey opsW sAfter50 logW
    (by
      intro op hop
      simp only [opsW, List.mem_singleton] at hop
      subst hop
      exact ⟨by decide, by decide, rfl⟩)
    rfl

/-- C7: the claim says a Transfer accepted by `validate` keeps every line's
available credit non-negative after `process`. Because the credit check
compares `hop.to` instead of `hop.amount`, this cyclic transfer of 100 over
lines whose trust limits are 1, 2 and 0 is accepted (all per-peer deltas are
zero, so no signature is needed), and afterwards the line `(0,1)` has
`trust.0 − balance = 1 − 100 < 0`. -/
theorem transfer_breaks_credit_invariant :
    validate sha0 rejectAll sCycle (.Transfer tCycle) = some (.ok ()) ∧
      process sCycle (.Transfer tCycle) = some sCycleAfter ∧
      ∃ l, List.lookup (Line.build_key 0 1) sCycleAfter.lines = some l ∧
        (l.trust.1 : Int) - l.balance < 0 :=
  ⟨rfl, rfl, ⟨{ peers := (0, 1), trust := (1, 0), balance := 100 }, rfl, by decide⟩⟩

/-- C8: the claim says a Transfer's sighash hashes the first
`7 + nhops*12` bytes of the serialization. `size_nosig` returns
`5 + nhops*12` (it omits the two length bytes), so the sighash buffer is two
bytes short and `write_serialized` panics: the hash input is never produced
for any Transfer — for the one-hop example `size_nosig` is 17 rather than
the 19 bytes the claim describes. -/
theorem transfer_sighash_panics :
    (∀ t : Transfer, t.sighashBytes = none) ∧
      Transfer.size_nosig { ts := 0, hops := [{ from_ := 1, to_ := 3, amount := 2 }], sigs := [] } = 17 :=
  ⟨sighashBytes_none, rfl⟩

/-- C10 (amended): operation deserialization is partial, but not on every
truncated record. The empty buffer panics reading the tag, and a `'t'` record
shorter than 109 bytes panics on one of its field slices. For tag `'x'` the
regions read are derived from the hop-count byte at position 5 alone — the
signature loop is bounded by `nhops`, not `nsigs` — so a record with a
nonzero hop-count byte shorter than 19 bytes panics in the hop loop, while a
record with hop-count byte 0 and at least 7 bytes deserializes successfully
to a Transfer with no hops and no signatures, whatever its signature-count
byte says. -/
theorem deserialize_short_buffer_panics :
    Operation.deserialize [] = none ∧
      (∀ buf : Bytes, buf.get? 0 = some 116 → buf.length < 109 →
        Operation.deserialize buf = none) ∧
      (∀ (buf : Bytes) (n : Nat), buf.get? 0 = some 120 → buf.get? 5 = some n → n ≠ 0 →
        buf.length < 19 → Operation.deserialize buf = none) ∧
      (∀ buf : Bytes, buf.get? 0 = some 120 → buf.get? 5 = some 0 → 7 ≤ buf.length →
        ∃ t : Transfer, Operation.deserialize buf = some (.Transfer t) ∧
          t.hops = [] ∧ t.sigs = []) := by
  refine ⟨rfl, ?_, ?_, ?_⟩
  · intro buf h0 hlen
    unfold Operation.deserialize
    rw [h0, trust_deserialize_short hlen]
    rfl
  · intro buf n h0 h5 hn hlen
    unfold Operation.deserialize
    rw [h0]
    have ht : Transfer.deserialize buf = none := by
      unfold Transfer.deserialize
      rw [h5]
      simp only [Option.some_bind]
      rw [readHops_short hn hlen]
      rfl
    rw [ht]
    rfl
  · intro buf h0 h5 hlen
    unfold Operation.deserialize
    rw [h0]
    have ht : Transfer.deserialize buf =
        some { ts := read32 ((buf.drop 1).take 4), hops := [], sigs := [] } := by
      unfold Transfer.deserialize
      rw [h5]
      simp only [Option.some_bind]
      rw [show readHops buf 0 0 0 = some [] from rfl]
      simp only [Option.some_bind]
      cases h6 : buf.get? 6 with
      | none =>
        exfalso
        have := List.get?_eq_none.mp h6
        omega
      | some b6 =>
        simp only [Option.some_bind]
        rw [show readSigs buf (7 + 0 * 12) 0 0 0 = some [] from rfl]
        simp only [Option.some_bind]
        have hrs : readSlice buf 1 5 = some ((buf.drop 1).take 4) := by
          unfold readSlice
          rw [if_pos ⟨by omega, by omega⟩]
        rw [hrs]
        rfl
    rw [ht]
    exact ⟨_, rfl, rfl, rfl⟩

/-- Counterexample to C10 as stated: the 7-byte tag-`'x'` record whose
hop-count byte is 0 and signature-count byte is 2 is far shorter than the
143 bytes its length bytes imply, yet `Operation::deserialize` neither
panics nor returns an error — it succeeds with an empty Transfer, because
the signature loop is bounded by `nhops`. -/
theorem deserialize_truncated_no_panic :
    truncatedNoHops.length < 7 + 0 * 12 + 2 * 68 ∧
      Operation.deserialize truncatedNoHops =
        some (.Transfer { ts := 0, hops := [], sigs := [] }) :=
  ⟨by decide, rfl⟩



/-- Witness for C9 (the spec's scenario): peer 1 sends 10 to peer 0 over the
line the server's Trust created, with an empty signature list, and `validate`
answers "missing signature from sender 1". -/
theorem validate_missing_sender_witness :
    specDelta tScenario.hops 1 < 0 ∧ (∀ ps ∈ tScenario.sigs, ps.peer_idx ≠ 1) ∧
      validate sha0 rejectAll sScenario (.Transfer tScenario) =
        some (.error ("missing signature from sender " ++ toString 1)) :=
  validate_missing_sender sha0 rejectAll sScenario tScenario dScenario 1 rfl rfl


end Cassis
